import Mathlib

/-!
Verification development for the tg-downloader task orchestration core.

The definitions below shallowly embed the TypeScript sources of the
repository: `src/services/task-service.ts`, `src/services/media-downloader.ts`,
the bot progress view (`createBotTaskProgressService`), and the small pieces of
supporting code they use.  JavaScript numbers that are always non-negative
integers in the program are modelled as `Nat`; `x || y` fallbacks on numbers
and strings are modelled by explicit helpers; fallible code returns `Except`.
-/

namespace TgDl

/-- Task lifecycle statuses (`task-service.ts`, `TaskStatus`). -/
inductive TaskStatus
  | pending
  | running
  | completed
  | failed
  | canceled
deriving DecidableEq, Repr

/-- Media kinds (`constants/media-types.ts`, `MEDIA_TYPES`). -/
inductive MediaType
  | photo
  | animation
  | audio
  | document
  | video
  | videoNote
  | voice
  | sticker
deriving DecidableEq, Repr

/-- The JavaScript `x || fallback` idiom on numbers: `0`, `NaN` and `undefined`
are falsy; here the value is an optional natural number, so `some 0` and `none`
both select the fallback. -/
def jsOrNat (v : Option Nat) (fallback : Nat) : Nat :=
  match v with
  | some n => if n = 0 then fallback else n
  | none => fallback

/-- The JavaScript `s || fallback` idiom on optional strings: the empty string
and `undefined` select the fallback. -/
def jsOrString (v : Option String) (fallback : String) : String :=
  match v with
  | some s => if s = "" then fallback else s
  | none => fallback

/-- A JavaScript number as observed by `resolveAlbumDownloadConcurrency`:
either an integer value, or a non-integer number (`NaN`, an infinity, or a
fractional value, i.e. anything failing `Number.isInteger`). -/
inductive JsNumber
  | nonInteger
  | int (n : Int)
deriving DecidableEq, Repr

/-- `media-downloader.ts` `DEFAULT_ALBUM_DOWNLOAD_CONCURRENCY`. -/
def DEFAULT_ALBUM_DOWNLOAD_CONCURRENCY : Nat := 3

/-- `media-downloader.ts` `MAX_ALBUM_DOWNLOAD_CONCURRENCY`. -/
def MAX_ALBUM_DOWNLOAD_CONCURRENCY : Int := 8

/-- `media-downloader.ts` `resolveAlbumDownloadConcurrency`: a missing or
non-integer request resolves to the default; an integer request is clamped
into `[1, MAX_ALBUM_DOWNLOAD_CONCURRENCY]`. -/
def resolveAlbumDownloadConcurrency (requested : Option JsNumber) : Nat :=
  match requested with
  | some (.int n) => (max 1 (min MAX_ALBUM_DOWNLOAD_CONCURRENCY n)).toNat
  | _ => DEFAULT_ALBUM_DOWNLOAD_CONCURRENCY

/-- One entry of `progressByIndex` in `downloadSourceMessages`: the per-file
progress slot kept for each downloadable message. -/
structure FileProgressSlot where
  downloaded : Nat
  total : Nat
  percent : Nat
  speedBytesPerSec : Nat
deriving DecidableEq, Repr

/-- The progress tuple delivered to `onProgress` callbacks
(`media-downloader.ts`, `DownloadProgress`). -/
structure DownloadProgress where
  downloaded : Nat
  total : Nat
  percent : Nat
  speedBytesPerSec : Nat
deriving DecidableEq, Repr

/-- The `totalBytes` reduction of `downloadSourceMessages`: the sum over the
downloadable items of `item.fileInfo.fileSize || 0`. -/
def totalBytesOf (declaredSizes : List (Option Nat)) : Nat :=
  declaredSizes.foldl (fun sum size => sum + jsOrNat size 0) 0

/-- `media-downloader.ts` `emitAggregateProgress` (the tuple it passes to
`options.onProgress`), as a function of the closed-over `totalBytes` and the
current `progressByIndex` slots.  `Math.floor` of the JavaScript divisions is
the natural-number division here. -/
def emitAggregateProgress (totalBytes : Nat) (progressByIndex : List FileProgressSlot) :
    DownloadProgress :=
  let aggregateDownloaded :=
    progressByIndex.foldl (fun sum progress => sum + progress.downloaded) 0
  let aggregateTotal :=
    if totalBytes > 0 then totalBytes
    else progressByIndex.foldl (fun sum progress => sum + max progress.total progress.downloaded) 0
  let percent :=
    if aggregateTotal > 0 then aggregateDownloaded * 100 / aggregateTotal
    else (progressByIndex.foldl (fun sum progress => sum + progress.percent) 0) /
      progressByIndex.length
  let aggregateSpeed :=
    progressByIndex.foldl (fun sum progress => sum + progress.speedBytesPerSec) 0
  { downloaded := aggregateDownloaded
    total := aggregateTotal
    percent := max 0 (min 100 percent)
    speedBytesPerSec := aggregateSpeed }

/-- The aggregate progress tuple as the claim words it: `downloaded` is the sum
of per-file downloaded bytes; `total` is the sum of declared sizes, falling
back to the sum of `max(total, downloaded)` when no file declares a size;
`percent` is the byte ratio except that, when no file declares a size, it is
the average of the per-file percents; `speed` is the sum of speeds.  This
definition follows the claim text and is compared against
`emitAggregateProgress`, which follows the source. -/
def claimAggregateProgress (declaredSizes : List (Option Nat))
    (progressByIndex : List FileProgressSlot) : DownloadProgress :=
  let downloaded := progressByIndex.foldl (fun sum progress => sum + progress.downloaded) 0
  let noDeclaredSize := declaredSizes.all (fun size => size.isNone)
  let total :=
    if noDeclaredSize then
      progressByIndex.foldl (fun sum progress => sum + max progress.total progress.downloaded) 0
    else totalBytesOf declaredSizes
  let percent :=
    if noDeclaredSize then
      (progressByIndex.foldl (fun sum progress => sum + progress.percent) 0) /
        progressByIndex.length
    else downloaded * 100 / total
  { downloaded := downloaded
    total := total
    percent := percent
    speedBytesPerSec :=
      progressByIndex.foldl (fun sum progress => sum + progress.speedBytesPerSec) 0 }

/-- The summed downloaded bytes of the slots, in closed form. -/
def aggregateDownloadedOf (slots : List FileProgressSlot) : Nat :=
  (slots.map (fun p => p.downloaded)).sum

/-- The aggregate total of the slots, in closed form: the declared total when
positive, else the fallback sum of `max total downloaded`. -/
def aggregateTotalOf (totalBytes : Nat) (slots : List FileProgressSlot) : Nat :=
  if totalBytes > 0 then totalBytes
  else (slots.map (fun p => max p.total p.downloaded)).sum

/-- The unclamped aggregate percent of the slots, in closed form: the byte
ratio when the aggregate total is positive, else the average of the per-file
percents. -/
def aggregatePercentOf (totalBytes : Nat) (slots : List FileProgressSlot) : Nat :=
  if aggregateTotalOf totalBytes slots > 0 then
    aggregateDownloadedOf slots * 100 / aggregateTotalOf totalBytes slots
  else (slots.map (fun p => p.percent)).sum / slots.length

/-- The summed instantaneous speed of the slots, in closed form. -/
def aggregateSpeedOf (slots : List FileProgressSlot) : Nat :=
  (slots.map (fun p => p.speedBytesPerSec)).sum

/-- The slot written by a worker when one file finishes
(`downloadSourceMessages`, the assignment after `downloadSourceMessage`
returns): `downloaded` and `total` are overwritten with
`fileInfo.fileSize || <previous bookkeeping>`, percent is forced to 100 and the
speed is zeroed. -/
def workerCompletionSlot (fileSize : Option Nat) (slot : FileProgressSlot) :
    FileProgressSlot :=
  { downloaded := jsOrNat fileSize slot.downloaded
    total := jsOrNat fileSize (max slot.total slot.downloaded)
    percent := 100
    speedBytesPerSec := 0 }

/-- One observable slot mutation inside the worker loop of
`downloadSourceMessages`: either a per-file `onProgress` callback overwriting
slot `index`, or the completion bookkeeping for the file at `index`. -/
inductive BatchEvent
  | progressUpdate (index : Nat) (progress : FileProgressSlot)
  | fileDone (index : Nat) (fileSize : Option Nat)
deriving DecidableEq, Repr

/-- Apply one slot mutation to the `progressByIndex` array. -/
def applyBatchEvent (slots : List FileProgressSlot) (event : BatchEvent) :
    List FileProgressSlot :=
  match event with
  | .progressUpdate index progress => slots.set index progress
  | .fileDone index fileSize =>
      slots.set index (workerCompletionSlot fileSize (slots.getD index ⟨0, 0, 0, 0⟩))

/-- The sequence of aggregate tuples emitted by `downloadSourceMessages`: after
every slot mutation, `emitAggregateProgress` is called exactly once on the
updated slots. -/
def batchEmissions (totalBytes : Nat) (slots : List FileProgressSlot) :
    List BatchEvent → List DownloadProgress
  | [] => []
  | event :: rest =>
      let slots' := applyBatchEvent slots event
      emitAggregateProgress totalBytes slots' :: batchEmissions totalBytes slots' rest

/-- `task-service.ts` `runTask`, completion path: the progress stored on the
`completed` upsert is the last progress with `percent` forced to 100. -/
def markCompletedProgress (progress : DownloadProgress) : DownloadProgress :=
  { progress with percent := 100 }

/-- `task-service.ts` `progressHandler`: reads the live task status; if the
task is already `canceled` it throws (modelled as `none`, no upsert), otherwise
it stores the progress and emits an upsert carrying the live status and this
progress. -/
def progressHandler (liveStatus : TaskStatus) (progress : DownloadProgress) :
    Option (TaskStatus × DownloadProgress) :=
  if liveStatus = .canceled then none
  else some (liveStatus, progress)

/-- The document-shaped media attached to a source message (a GramJS
`Api.Document`), restricted to the fields the downloader reads: the
`DocumentAttributeFilename` attribute, the declared size, and the mime type. -/
structure DocMedia where
  fileNameAttr : Option String
  size : Option Nat
  mimeType : Option String
deriving DecidableEq, Repr

/-- A resolved source message (a GramJS `Api.Message`), restricted to the media
accessors `getFileInfoFromSourceMessage` inspects.  `photo` records the
presence of an `Api.Photo`. -/
structure SourceMsg where
  id : Nat
  photo : Bool := false
  videoNote : Option DocMedia := none
  video : Option DocMedia := none
  audio : Option DocMedia := none
  voice : Option DocMedia := none
  gif : Option DocMedia := none
  sticker : Option DocMedia := none
  document : Option DocMedia := none
deriving DecidableEq, Repr

/-- A file descriptor (`file-info-service.ts` `FileInfo`); the constant-empty
`fileId` field is omitted. -/
structure FileInfo where
  fileName : Option String
  fileSize : Option Nat
  mimeType : Option String
  mediaType : MediaType
deriving DecidableEq, Repr

/-- `media-downloader.ts` `buildFallbackFileName`. -/
def buildFallbackFileName (messageId : Nat) : String :=
  "message_" ++ toString messageId

/-- `media-downloader.ts` `getFileNameFromDocument`: the filename attribute if
present, else the fallback. -/
def getFileNameFromDocument (doc : DocMedia) (fallbackName : String) : String :=
  match doc.fileNameAttr with
  | some fileName => fileName
  | none => fallbackName

/-- `media-downloader.ts` `normalizeFileSize`: parsing the big-integer size
back into a number is the identity on the `Nat` model. -/
def normalizeFileSize (size : Option Nat) : Option Nat := size

/-- `media-downloader.ts` `getFileInfoFromSourceMessage`: classify a source
message into a file descriptor following the source's fixed priority order;
`none` when the message has no downloadable media. -/
def getFileInfoFromSourceMessage (m : SourceMsg) : Option FileInfo :=
  if m.photo then
    some { fileName := some (buildFallbackFileName m.id), fileSize := none,
           mimeType := none, mediaType := .photo }
  else if m.videoNote.isSome then
    some { fileName := some (buildFallbackFileName m.id), fileSize := none,
           mimeType := none, mediaType := .videoNote }
  else if let some doc := m.video then
    some { fileName := some (getFileNameFromDocument doc (buildFallbackFileName m.id)),
           fileSize := normalizeFileSize doc.size, mimeType := doc.mimeType,
           mediaType := .video }
  else if let some doc := m.audio then
    some { fileName := some (getFileNameFromDocument doc (buildFallbackFileName m.id)),
           fileSize := normalizeFileSize doc.size, mimeType := doc.mimeType,
           mediaType := .audio }
  else if let some doc := m.voice then
    some { fileName := some (buildFallbackFileName m.id),
           fileSize := normalizeFileSize doc.size, mimeType := doc.mimeType,
           mediaType := .voice }
  else if let some doc := m.gif then
    some { fileName := some (getFileNameFromDocument doc (buildFallbackFileName m.id)),
           fileSize := normalizeFileSize doc.size, mimeType := doc.mimeType,
           mediaType := .animation }
  else if let some doc := m.sticker then
    some { fileName := some (buildFallbackFileName m.id),
           fileSize := normalizeFileSize doc.size, mimeType := doc.mimeType,
           mediaType := .sticker }
  else if let some doc := m.document then
    some { fileName := some (getFileNameFromDocument doc (buildFallbackFileName m.id)),
           fileSize := normalizeFileSize doc.size, mimeType := doc.mimeType,
           mediaType := .document }
  else none

/-- `media-downloader.ts` `DownloadOptions`; the progress callback is modelled
by an opaque identity so that option forwarding is observable. -/
structure DownloadOptions where
  onProgress : Option Nat := none
  albumConcurrency : Option JsNumber := none
deriving DecidableEq, Repr

/-- `media-downloader.ts` `LinkDownloadOptions extends DownloadOptions`. -/
structure LinkDownloadOptions extends DownloadOptions where
  allowedMediaTypes : Option (List MediaType) := none
deriving DecidableEq, Repr

/-- The `downloadableMessages` computation at the head of
`downloadSourceMessages`: classify every message, drop the unclassifiable
ones, then drop the kinds outside `allowedMediaTypes` when that list is
given. -/
def downloadableMessages (sourceMessages : List SourceMsg)
    (allowedMediaTypes : Option (List MediaType)) : List (SourceMsg × FileInfo) :=
  ((sourceMessages.map (fun m => (m, getFileInfoFromSourceMessage m))).filterMap
      (fun item => item.2.map (fun fileInfo => (item.1, fileInfo)))).filter
    (fun item =>
      match allowedMediaTypes with
      | none => true
      | some allowed => allowed.contains item.2.mediaType)

/-- Errors `downloadSourceMessages` can raise before any transfer starts. -/
inductive DlError
  | noDownloadableContent
deriving DecidableEq, Repr

/-- The deterministic batch plan `downloadSourceMessages` commits to before the
workers run: the downloadable items, the declared byte total, the worker-pool
size actually spawned (`Math.min(totalFiles, resolveAlbumDownloadConcurrency)`)
and the progress callback the aggregate tuples go to. -/
structure BatchPlan where
  items : List (SourceMsg × FileInfo)
  totalBytes : Nat
  concurrency : Nat
  onProgress : Option Nat
deriving DecidableEq, Repr

instance instDecidableEqExcept {ε α : Type} [DecidableEq ε] [DecidableEq α] :
    DecidableEq (Except ε α) := fun a b =>
  match a, b with
  | .ok x, .ok y =>
    match decEq x y with
    | isTrue h => isTrue (h ▸ rfl)
    | isFalse h => isFalse (fun hc => h (Except.ok.inj hc))
  | .error x, .error y =>
    match decEq x y with
    | isTrue h => isTrue (h ▸ rfl)
    | isFalse h => isFalse (fun hc => h (Except.error.inj hc))
  | .ok _, .error _ => isFalse (fun hc => Except.noConfusion hc)
  | .error _, .ok _ => isFalse (fun hc => Except.noConfusion hc)

/-- Build the batch plan from the downloadable items and the options. -/
def mkBatchPlan (items : List (SourceMsg × FileInfo)) (options : LinkDownloadOptions) :
    BatchPlan :=
  { items := items
    totalBytes := totalBytesOf (items.map (fun item => item.2.fileSize))
    concurrency := min items.length (resolveAlbumDownloadConcurrency options.albumConcurrency)
    onProgress := options.onProgress }

/-- `media-downloader.ts` `downloadSourceMessages`, up to its deterministic
plan: classification, kind filtering, the empty-batch error, and the committed
worker-pool shape. -/
def downloadSourceMessages (sourceMessages : List SourceMsg)
    (options : LinkDownloadOptions) : Except DlError BatchPlan :=
  let downloadable := downloadableMessages sourceMessages options.allowedMediaTypes
  if downloadable.length = 0 then .error .noDownloadableContent
  else .ok (mkBatchPlan downloadable options)

/-- `media-downloader.ts` `downloadFile` (the bot-message entry point) after
the seed message has been resolved: it runs album resolution (abstracted as
`resolveBatch`, the shared `resolveBatchSourceMessages`) and then calls
`downloadSourceMessages` passing an options object holding only
`options?.onProgress`. -/
def downloadFile (resolveBatch : SourceMsg → List SourceMsg) (seedMessage : SourceMsg)
    (options : DownloadOptions) : Except DlError BatchPlan :=
  downloadSourceMessages (resolveBatch seedMessage)
    { onProgress := options.onProgress, albumConcurrency := none,
      allowedMediaTypes := none }

/-- `media-downloader.ts` `downloadFileByMessageLink` after the seed message
has been resolved: the same album resolution, then `downloadSourceMessages`
with the caller's options passed through unchanged. -/
def downloadFileByMessageLink (resolveBatch : SourceMsg → List SourceMsg)
    (seedMessage : SourceMsg) (options : LinkDownloadOptions) : Except DlError BatchPlan :=
  downloadSourceMessages (resolveBatch seedMessage) options

/-- `String(n).padStart(2, "0")`. -/
def pad2 (n : Nat) : String :=
  if n < 10 then "0" ++ toString n else toString n

/-- `String(n).padStart(3, "0")`. -/
def pad3 (n : Nat) : String :=
  if n < 10 then "00" ++ toString n
  else if n < 100 then "0" ++ toString n
  else toString n

/-- `media-downloader.ts` `formatTimestamp` (the month argument is the
already-incremented `getMonth() + 1`). -/
def formatTimestamp (year month day hour minute second millisecond : Nat) : String :=
  toString year ++ pad2 month ++ pad2 day ++ "_" ++ pad2 hour ++ pad2 minute ++
    pad2 second ++ "_" ++ pad3 millisecond

/-- The basename step of Node's `path.parse` on a POSIX path: strip trailing
separators, then keep what follows the last separator. -/
def posixBasename (s : String) : String :=
  let rev := s.toList.reverse.dropWhile (fun c => c = '/')
  String.mk (rev.takeWhile (fun c => c ≠ '/')).reverse

/-- The name/ext split of Node's `path.parse` on a basename: the extension
starts at the last dot, unless that dot is the first character or the basename
is entirely dots. -/
def splitExtension (base : String) : String × String :=
  if base.toList.all (fun c => c = '.') then (base, "")
  else
    let chars := base.toList
    let afterLastDot := chars.reverse.takeWhile (fun c => c ≠ '.')
    if afterLastDot.length = chars.length then (base, "")
    else
      let dotIndex := chars.length - (afterLastDot.length + 1)
      if dotIndex = 0 then (base, "")
      else (String.mk (chars.take dotIndex), String.mk (chars.drop dotIndex))

/-- The characters removed by the `sanitize-filename` package's illegal-char
class. -/
def illegalChars : List Char :=
  ['/', '?', '<', '>', '\\', ':', '*', '|', '\"']

/-- The control characters removed by `sanitize-filename`. -/
def isControlChar (c : Char) : Bool :=
  c.val < 32 || (128 ≤ c.val && c.val ≤ 159)

/-- The Windows reserved device names matched by `sanitize-filename`. -/
def windowsReservedNames : List String :=
  ["con", "prn", "aux", "nul"] ++
    (List.range 10).map (fun i => "com" ++ toString i) ++
    (List.range 10).map (fun i => "lpt" ++ toString i)

/-- `String.toLower`, spelled out over the character list. -/
def lowerString (s : String) : String :=
  String.mk (s.toList.map Char.toLower)

/-- Whether `pattern` is an initial run of `s` (the `startsWith` test spelled
out over character lists). -/
def leadingMatch : List Char → List Char → Bool
  | [], _ => true
  | _ :: _, [] => false
  | a :: pattern, b :: s => a == b && leadingMatch pattern s

/-- `sanitize-filename`'s `^(con|prn|aux|nul|com[0-9]|lpt[0-9])(\..*)?$/i`
test. -/
def matchesWindowsReserved (s : String) : Bool :=
  let low := lowerString s
  windowsReservedNames.any
    (fun name => low = name || leadingMatch (name ++ ".").toList low.toList)

/-- Keep the longest char list whose UTF-8 encoding fits in `budget` bytes. -/
def takeUtf8Bytes (budget : Nat) : List Char → List Char
  | [] => []
  | c :: cs => if c.utf8Size ≤ budget then c :: takeUtf8Bytes (budget - c.utf8Size) cs else []

/-- The `sanitize-filename` package with the default empty replacement: strip
illegal and control characters, blank an all-dots name, blank a Windows
reserved device name, strip trailing dots and spaces, truncate to 255 bytes. -/
def sanitizeFilename (input : String) : String :=
  let s1 := String.mk (input.toList.filter
    (fun c => ¬ illegalChars.contains c ∧ isControlChar c = false))
  let s2 := if s1 ≠ "" ∧ s1.toList.all (fun c => c = '.') then "" else s1
  let s3 := if matchesWindowsReserved s2 then "" else s2
  let s4 := String.mk (s3.toList.reverse.dropWhile (fun c => c = '.' ∨ c = ' ')).reverse
  String.mk (takeUtf8Bytes 255 s4.toList)

/-- `media-downloader.ts` `addTimestampToFileName`, with the timestamp string
passed in (the source formats `new Date()` at the call): `path.parse` the
name, fall back to `"file"` for an empty parsed name, and rebuild as
`<name>_<timestamp><ext>`. -/
def addTimestampToFileName (fileName : String) (timestamp : String) : String :=
  let base := posixBasename fileName
  let nameExt := splitExtension base
  let baseName := if nameExt.1 = "" then "file" else nameExt.1
  baseName ++ "_" ++ timestamp ++ nameExt.2

/-- The on-disk name computed by `downloadSourceMessage` (lines building
`safeName`): `fileInfo.fileName || "file"`, timestamped, sanitized, with the
`file_<timestamp>` fallback when sanitization yields the empty string.  The
source formats a fresh `new Date()` for the fallback; the model reuses the
same timestamp. -/
def buildDownloadFileName (declaredName : Option String) (timestamp : String) : String :=
  let baseName := jsOrString declaredName "file"
  let candidateName := addTimestampToFileName baseName timestamp
  let sanitized := sanitizeFilename candidateName
  if sanitized = "" then "file_" ++ timestamp else sanitized

/-- The filename recipe as the claim words it: sanitize the declared display
name first, then append the timestamp before the extension, with the
`file_<timestamp>` fallback when sanitization is empty.  Compared against
`buildDownloadFileName`, which follows the source. -/
def claimDownloadFileName (declaredName : Option String) (timestamp : String) : String :=
  let baseName := jsOrString declaredName "file"
  let sanitizedBase := sanitizeFilename baseName
  if sanitizedBase = "" then "file_" ++ timestamp
  else
    let nameExt := splitExtension sanitizedBase
    nameExt.1 ++ "_" ++ timestamp ++ nameExt.2

/-- The files on disk under the download directory: each path maps to the
number of bytes currently written at it. -/
def FileSystem : Type := String → Option Nat

/-- Write (or overwrite) `bytes` at `p`. -/
def fsWrite (fs : FileSystem) (p : String) (bytes : Nat) : FileSystem :=
  fun q => if q = p then some bytes else fs q

/-- `fs.rm(p, force)` — removes `p`, no error when absent. -/
def fsRemove (fs : FileSystem) (p : String) : FileSystem :=
  fun q => if q = p then none else fs q

/-- The outcome of the protocol client's transfer into `targetPath` (the
client is a black box): either it finishes after writing `bytes`, or an error
is thrown — by the transport or by the progress callback (e.g. on
cancellation) — after `partialBytes` have been written. -/
inductive TransferOutcome
  | success (bytes : Nat)
  | failure (partialBytes : Nat)
deriving DecidableEq, Repr

/-- `media-downloader.ts` `downloadSourceMessage`, restricted to its effect on
the target file: the try block performs the transfer; the catch block removes
the partially written `targetPath` (ignoring removal failure) and rethrows.
Returns the propagated result and the resulting file system. -/
def downloadSourceMessage (fs : FileSystem) (targetPath : String)
    (outcome : TransferOutcome) : Except Unit String × FileSystem :=
  match outcome with
  | .success bytes => (.ok targetPath, fsWrite fs targetPath bytes)
  | .failure partialBytes =>
      (.error (), fsRemove (fsWrite fs targetPath partialBytes) targetPath)

/-- `task-service.ts` `TASK_TTL_MS`. -/
def TASK_TTL_MS : Nat := 1000 * 60 * 60 * 24

/-- `task-service.ts` `MAX_CONCURRENT_RUNNING_TASKS`. -/
def MAX_CONCURRENT_RUNNING_TASKS : Nat := 3

/-- `task-service.ts` `isTaskFinished`. -/
def isTaskFinished (status : TaskStatus) : Bool :=
  match status with
  | .completed => true
  | .failed => true
  | .canceled => true
  | _ => false

/-- `task-service.ts` `getExpiresAt` with the clock passed in. -/
def getExpiresAt (now : Nat) : Nat := now + TASK_TTL_MS

/-- `task-service.ts` `TaskResult`. -/
structure TaskResult where
  filePath : Option String := none
  fileName : Option String := none
  filePaths : Option (List String) := none
  fileNames : Option (List String) := none
  error : Option String := none
deriving DecidableEq, Repr

/-- `task-service.ts` `TaskRecord`, with numeric timestamps and without the
progress/meta fields `cancelTask` never touches. -/
structure TaskRecord where
  id : String
  status : TaskStatus
  createdAt : Nat := 0
  updatedAt : Nat := 0
  expiresAt : Option Nat := none
  result : Option TaskResult := none
deriving DecidableEq, Repr

/-- The module state of `task-service.ts`: the `tasks` map (as a list of
records keyed by their `id` field) and the ids present in `taskPayloads`. -/
structure TaskStore where
  tasks : List TaskRecord
  taskPayloads : List String
deriving DecidableEq, Repr

/-- The eviction test of `cleanupExpiredTasks`: an `expiresAt` is set, the
task is finished, and the expiry is not in the future. -/
def isExpired (now : Nat) (t : TaskRecord) : Bool :=
  isTaskFinished t.status &&
    (match t.expiresAt with
     | some e => decide (e ≤ now)
     | none => false)

/-- `task-service.ts` `cleanupExpiredTasks`: drop every expired finished task
together with its stored payload (the emitted `remove` events are not modelled
here). -/
def cleanupExpiredTasks (now : Nat) (store : TaskStore) : TaskStore :=
  let removedIds := (store.tasks.filter (fun t => isExpired now t)).map (fun t => t.id)
  { tasks := store.tasks.filter (fun t => !(isExpired now t))
    taskPayloads := store.taskPayloads.filter (fun pid => !(removedIds.contains pid)) }

/-- `tasks.get(taskId)`. -/
def lookupTask (store : TaskStore) (taskId : String) : Option TaskRecord :=
  store.tasks.find? (fun t => t.id == taskId)

/-- The two error classes `cancelTask` throws. -/
inductive CancelError
  | notFound
  | alreadyFinished
deriving DecidableEq, Repr

/-- The record mutation `cancelTask` performs on an active task: status
`canceled`, `updatedAt` bumped, `result.error` stamped with the reason over
any existing result fields, and a fresh `expiresAt`. -/
def canceledTaskRecord (now : Nat) (reason : String) (task : TaskRecord) : TaskRecord :=
  { task with
    status := .canceled
    updatedAt := now
    result := some { (task.result.getD {}) with error := some reason }
    expiresAt := some (getExpiresAt now) }

/-- Replace the record stored under `taskId` (the source mutates the mapped
object in place). -/
def storeReplaceTask (store : TaskStore) (taskId : String) (task : TaskRecord) : TaskStore :=
  { store with tasks := store.tasks.map (fun t => if t.id == taskId then task else t) }

/-- `task-service.ts` `cancelTask`.  The returned `Bool` records whether
`scheduleTaskRuns` was invoked again (the source calls it exactly when the
task was still `pending`, right after dropping its payload).  The `upsert`
event is the returned record. -/
def cancelTask (now : Nat) (store : TaskStore) (taskId : String) (reason : String) :
    Except CancelError (TaskStore × TaskRecord × Bool) :=
  let store1 := cleanupExpiredTasks now store
  match lookupTask store1 taskId with
  | none => .error .notFound
  | some task =>
    if task.status = .completed ∨ task.status = .failed then .error .alreadyFinished
    else if task.status = .canceled then .ok (store1, task, false)
    else
      let task2 := canceledTaskRecord now reason task
      let store2 := storeReplaceTask store1 taskId task2
      if task.status = .pending then
        .ok ({ store2 with
               taskPayloads := store2.taskPayloads.filter (fun pid => !(pid == taskId)) },
             task2, true)
      else .ok (store2, task2, false)

/-- The scheduler-relevant state of one task: its status, whether its payload
is still stored, whether its id is in `runningTaskIds`, and whether the sweep
has deleted it from the `tasks` map. -/
structure TaskCell where
  status : TaskStatus
  hasPayload : Bool
  admitted : Bool
  removed : Bool
deriving DecidableEq, Repr

/-- The scheduler state: one cell per ever-created task, identified by its
position (ids are fresh UUIDs, so positions never get reused). -/
abbrev SchedState := List TaskCell

/-- Update the cell at position `i` (no-op out of bounds). -/
def updateCell : List TaskCell → Nat → (TaskCell → TaskCell) → List TaskCell
  | [], _, _ => []
  | c :: s, 0, f => f c :: s
  | c :: s, i + 1, f => c :: updateCell s i f

/-- `runningTaskIds.size`. -/
def admittedCount (s : SchedState) : Nat :=
  s.countP (fun c => c.admitted)

/-- The number of tasks whose live status is `running`. -/
def runningCount (s : SchedState) : Nat :=
  s.countP (fun c => c.status = .running)

/-- The status of task `i`, when the task exists. -/
def cellStatus (s : SchedState) (i : Nat) : Option TaskStatus :=
  (s[i]?).map (fun c => c.status)

/-- An externally observable event of one scheduler step: an `upsert` event
for task `i` carrying the status on the emitted record, a `remove` event from
the sweep, or no event. -/
inductive SchedLabel
  | upsert (i : Nat) (status : TaskStatus)
  | removeEvent (i : Nat)
  | silent
deriving DecidableEq, Repr

/-- The labelled transition system of `task-service.ts`.  Each constructor is
one atomic mutation the module performs between suspension points:

* `create` — `createLinkDownloadTask` / `createBotMessageDownloadTask` insert
  a fresh `pending` record with a stored payload and emit its upsert.
* `admitTask` — one iteration of the `scheduleTaskRuns` loop: only while
  `runningTaskIds.size < MAX_CONCURRENT_RUNNING_TASKS`, and only a pending
  task that still has a payload and is not already in `runningTaskIds`
  (`findNextPendingTaskId`), is added to `runningTaskIds`.
* `startRun` — `runTask` finds the record pending with payload and moves it to
  `running`, emitting the upsert.
* `startMissingPayload` — `runTask` with the payload gone marks the task
  `failed`.
* `startAlreadyCanceled` — `runTask` on a task canceled before it started
  only re-emits the canceled record.
* `progressEmit` — `progressHandler` on a live running task emits an upsert
  with status `running` (on a canceled task it throws and emits nothing).
* `finishComplete` / `finishFailed` — the post-download paths of `runTask`
  when the live status is still `running`; the payload is dropped in the
  `finally`.
* `finishCanceled` — the post-download paths when the live status is
  `canceled`: the status and result are left untouched, only the canceled
  record is re-emitted (and the payload dropped by the `finally`).
* `cancelPending` / `cancelRunning` — `cancelTask` on an active task; a
  pending task also loses its payload.
* `settle` — the `.finally` of `scheduleTaskRuns` removes the id from
  `runningTaskIds` once `runTask`'s promise resolves (by then the task is
  finished or its record was swept).
* `sweep` — `cleanupExpiredTasks` deletes a finished task and its payload,
  emitting a `remove` event. -/
inductive SchedStep : SchedState → SchedLabel → SchedState → Prop where
  | create (s : SchedState) :
      SchedStep s (.upsert s.length .pending)
        (s ++ [{ status := .pending, hasPayload := true, admitted := false, removed := false }])
  | admitTask (s : SchedState) (i : Nat) (c : TaskCell) (hc : s[i]? = some c)
      (hrem : c.removed = false) (hstatus : c.status = .pending)
      (hpay : c.hasPayload = true) (hadm : c.admitted = false)
      (hcap : admittedCount s < MAX_CONCURRENT_RUNNING_TASKS) :
      SchedStep s .silent (updateCell s i (fun c => { c with admitted := true }))
  | startRun (s : SchedState) (i : Nat) (c : TaskCell) (hc : s[i]? = some c)
      (hrem : c.removed = false) (hadm : c.admitted = true)
      (hstatus : c.status = .pending) (hpay : c.hasPayload = true) :
      SchedStep s (.upsert i .running)
        (updateCell s i (fun c => { c with status := .running }))
  | startMissingPayload (s : SchedState) (i : Nat) (c : TaskCell) (hc : s[i]? = some c)
      (hrem : c.removed = false) (hadm : c.admitted = true)
      (hstatus : c.status = .pending) (hpay : c.hasPayload = false) :
      SchedStep s (.upsert i .failed)
        (updateCell s i (fun c => { c with status := .failed }))
  | startAlreadyCanceled (s : SchedState) (i : Nat) (c : TaskCell) (hc : s[i]? = some c)
      (hrem : c.removed = false) (hadm : c.admitted = true)
      (hstatus : c.status = .canceled) :
      SchedStep s (.upsert i .canceled) s
  | progressEmit (s : SchedState) (i : Nat) (c : TaskCell) (hc : s[i]? = some c)
      (hrem : c.removed = false) (hadm : c.admitted = true)
      (hstatus : c.status = .running) :
      SchedStep s (.upsert i .running) s
  | finishComplete (s : SchedState) (i : Nat) (c : TaskCell) (hc : s[i]? = some c)
      (hrem : c.removed = false) (hadm : c.admitted = true)
      (hstatus : c.status = .running) :
      SchedStep s (.upsert i .completed)
        (updateCell s i (fun c => { c with status := .completed, hasPayload := false }))
  | finishFailed (s : SchedState) (i : Nat) (c : TaskCell) (hc : s[i]? = some c)
      (hrem : c.removed = false) (hadm : c.admitted = true)
      (hstatus : c.status = .running) :
      SchedStep s (.upsert i .failed)
        (updateCell s i (fun c => { c with status := .failed, hasPayload := false }))
  | finishCanceled (s : SchedState) (i : Nat) (c : TaskCell) (hc : s[i]? = some c)
      (hrem : c.removed = false) (hadm : c.admitted = true)
      (hstatus : c.status = .canceled) :
      SchedStep s (.upsert i .canceled)
        (updateCell s i (fun c => { c with hasPayload := false }))
  | cancelPending (s : SchedState) (i : Nat) (c : TaskCell) (hc : s[i]? = some c)
      (hrem : c.removed = false) (hstatus : c.status = .pending) :
      SchedStep s (.upsert i .canceled)
        (updateCell s i (fun c => { c with status := .canceled, hasPayload := false }))
  | cancelRunning (s : SchedState) (i : Nat) (c : TaskCell) (hc : s[i]? = some c)
      (hrem : c.removed = false) (hstatus : c.status = .running) :
      SchedStep s (.upsert i .canceled)
        (updateCell s i (fun c => { c with status := .canceled }))
  | settle (s : SchedState) (i : Nat) (c : TaskCell) (hc : s[i]? = some c)
      (hadm : c.admitted = true)
      (hdone : isTaskFinished c.status = true ∨ c.removed = true) :
      SchedStep s .silent (updateCell s i (fun c => { c with admitted := false }))
  | sweep (s : SchedState) (i : Nat) (c : TaskCell) (hc : s[i]? = some c)
      (hrem : c.removed = false) (hfin : isTaskFinished c.status = true) :
      SchedStep s (.removeEvent i)
        (updateCell s i (fun c => { c with removed := true, hasPayload := false }))

/-- States reachable from the empty task map by scheduler steps. -/
inductive SchedReachable : SchedState → Prop where
  | init : SchedReachable []
  | step (s : SchedState) (l : SchedLabel) (sNext : SchedState) :
      SchedReachable s → SchedStep s l sNext → SchedReachable sNext

/-- A finite run of scheduler steps, accumulating the emitted labels. -/
inductive SchedSteps : SchedState → List SchedLabel → SchedState → Prop where
  | refl (s : SchedState) : SchedSteps s [] s
  | cons (s : SchedState) (l : SchedLabel) (sMid : SchedState) (ls : List SchedLabel)
      (sEnd : SchedState) :
      SchedStep s l sMid → SchedSteps sMid ls sEnd → SchedSteps s (l :: ls) sEnd

/-- What the bot progress view does with one task upsert. -/
inductive ViewAction
  | skip
  | render (withCancelButton : Bool)
  | deleteMessage
deriving DecidableEq, Repr

/-- `bot-task-progress-service` `updateTaskView`, as a function of the fields
it reads: whether a view exists for the task, the view's `paused` flag and
throttle state, and the upsert's status and `progress.percent || 0`.  Returns
the queued action together with the updated `lastPercent`/`lastEditAt`.  The
JavaScript differences `percent - lastPercent` and `now - lastEditAt` are
natural subtraction here, which agrees with the source's comparisons since a
negative difference fails the `>=` test exactly as a truncated-to-zero one
does. -/
def updateTaskView (viewExists paused : Bool) (status : TaskStatus)
    (percent lastPercent lastEditAt now : Nat) : ViewAction × Nat × Nat :=
  if viewExists = false then (.skip, lastPercent, lastEditAt)
  else
    let running : Bool := status = .running ∨ status = .pending
    if paused && running then (.skip, lastPercent, lastEditAt)
    else
      let shouldEdit : Bool := 2 ≤ percent - lastPercent ∨ 1500 ≤ now - lastEditAt
      if status = .running ∧ shouldEdit = false then (.skip, lastPercent, lastEditAt)
      else
        let lastPercentNext := if status = .running then percent else lastPercent
        let lastEditAtNext := if status = .running then now else lastEditAt
        if status = .canceled then (.deleteMessage, lastPercentNext, lastEditAtNext)
        else (.render running, lastPercentNext, lastEditAtNext)

/-- The scheduler invariant: `runningTaskIds` is bounded by the ceiling, every
`running` task is in `runningTaskIds`, and a swept task was finished. -/
def SchedInv (s : SchedState) : Prop :=
  admittedCount s ≤ MAX_CONCURRENT_RUNNING_TASKS ∧
    ∀ c ∈ s, (c.status = .running → c.admitted = true) ∧
      (c.removed = true → isTaskFinished c.status = true)

/-! ## Helper lemmas -/

theorem foldl_add_eq {α : Type} (f : α → Nat) (l : List α) (a : Nat) :
    l.foldl (fun sum x => sum + f x) a = a + (l.map f).sum := by
  induction l generalizing a with
  | nil => simp
  | cons x l ih => simp [ih]; omega

theorem sum_map_set_le {α : Type} (f : α → Nat) (l : List α) :
    ∀ (i : Nat) (x : α) (h : i < l.length),
      f (l.get ⟨i, h⟩) ≤ f x → (l.map f).sum ≤ ((l.set i x).map f).sum := by
  induction l with
  | nil => intro i x h; simp at h
  | cons y l ih =>
    intro i x h hle
    cases i with
    | zero => simpa using Nat.add_le_add_right (by simpa using hle) (l.map f).sum
    | succ j =>
      have hj : j < l.length := by simpa using h
      have := ih j x hj (by simpa using hle)
      simpa using Nat.add_le_add_left this (f y)

theorem emitAggregateProgress_eq (totalBytes : Nat) (slots : List FileProgressSlot) :
    emitAggregateProgress totalBytes slots =
      { downloaded := aggregateDownloadedOf slots
        total := aggregateTotalOf totalBytes slots
        percent := min 100 (aggregatePercentOf totalBytes slots)
        speedBytesPerSec := aggregateSpeedOf slots } := by
  simp only [emitAggregateProgress, aggregateDownloadedOf, aggregateTotalOf, aggregatePercentOf,
    aggregateSpeedOf, foldl_add_eq, Nat.zero_add]
  rw [Nat.max_eq_right (Nat.zero_le _)]

theorem batchEmissions_length (totalBytes : Nat) :
    ∀ (events : List BatchEvent) (slots : List FileProgressSlot),
      (batchEmissions totalBytes slots events).length = events.length := by
  intro events
  induction events with
  | nil => intro slots; rfl
  | cons e rest ih => intro slots; simp [batchEmissions, ih]

/-! ## Claims about the download orchestrator -/

/-- C10: `resolveAlbumDownloadConcurrency` returns the default 3 when the
request is absent or a non-integer number, and `max 1 (min 8 requested)` for
an integer request; the worker pool spawned by `downloadSourceMessages` has
size `min fileCount resolvedConcurrency`, which never exceeds the number of
downloadable files. -/
theorem c10_album_concurrency :
    resolveAlbumDownloadConcurrency none = 3
  ∧ resolveAlbumDownloadConcurrency (some .nonInteger) = 3
  ∧ (∀ n : Int, (resolveAlbumDownloadConcurrency (some (.int n)) : Int) = max 1 (min 8 n))
  ∧ (∀ (items : List (SourceMsg × FileInfo)) (options : LinkDownloadOptions),
      (mkBatchPlan items options).concurrency =
          min items.length (resolveAlbumDownloadConcurrency options.albumConcurrency)
        ∧ (mkBatchPlan items options).concurrency ≤ items.length) := by
  refine ⟨rfl, rfl, ?_, ?_⟩
  · intro n
    have h1 : (1 : Int) ≤ max 1 (min MAX_ALBUM_DOWNLOAD_CONCURRENCY n) := le_max_left _ _
    simp only [resolveAlbumDownloadConcurrency]
    rw [Int.toNat_of_nonneg (le_trans zero_le_one h1)]
    rfl
  · intro items options
    exact ⟨rfl, Nat.min_le_left _ _⟩

/-- C8: when the transfer into `targetPath` throws — whether from the
transport or from the progress callback after cancellation —
`downloadSourceMessage` removes the partially written target file and
propagates the error, so no partial output remains for that file. -/
theorem c8_partial_file_removed :
    ∀ (fs : FileSystem) (targetPath : String) (partialBytes : Nat),
      (downloadSourceMessage fs targetPath (.failure partialBytes)).1 = .error ()
      ∧ (downloadSourceMessage fs targetPath (.failure partialBytes)).2 targetPath = none := by
  intro fs targetPath partialBytes
  exact ⟨rfl, by simp [downloadSourceMessage, fsRemove]⟩

/-- C9: while a task is `running`, `updateTaskView` re-renders only when the
percent advanced at least 2 points since the last rendered percent or at least
1500 ms passed since the last edit; an upsert with a terminal status always
renders immediately (deleting the message for `canceled`), regardless of the
paused flag and of the throttle state. -/
theorem c9_progress_view_throttle :
    (∀ (paused : Bool) (percent lastPercent lastEditAt now : Nat),
        (updateTaskView true paused .running percent lastPercent lastEditAt now).1 ≠ .skip →
        lastPercent + 2 ≤ percent ∨ lastEditAt + 1500 ≤ now)
  ∧ (∀ (paused : Bool) (percent lastPercent lastEditAt now : Nat),
        (updateTaskView true paused .completed percent lastPercent lastEditAt now).1 =
            .render false
      ∧ (updateTaskView true paused .failed percent lastPercent lastEditAt now).1 =
            .render false
      ∧ (updateTaskView true paused .canceled percent lastPercent lastEditAt now).1 =
            .deleteMessage) := by
  constructor
  · intro paused percent lastPercent lastEditAt now h
    by_cases hs : 2 ≤ percent - lastPercent ∨ 1500 ≤ now - lastEditAt
    · omega
    · exfalso
      apply h
      cases paused <;> simp [updateTaskView, hs]
  · intro paused percent lastPercent lastEditAt now
    cases paused <;> refine ⟨?_, ?_, ?_⟩ <;> simp [updateTaskView]

/-- C9 witness: a concrete running-status upsert that renders, at which the
throttle condition indeed holds. -/
theorem c9_progress_view_throttle_witness :
    (updateTaskView true false .running 10 0 0 0).1 ≠ .skip
  ∧ (0 + 2 ≤ 10 ∨ 0 + 1500 ≤ 0) :=
  ⟨by decide, c9_progress_view_throttle.1 false 10 0 0 0 (by decide)⟩

/-- C4 counterexample: the claim's aggregate formula disagrees with the code.
With two files and no declared sizes the code still uses the byte ratio over
the fallback total (9%), while the claim averages the per-file percents (50%);
with a declared total that understates the transferred bytes the code clamps
the percent to 100 while the claim's unclamped ratio is 5000. -/
theorem c4_aggregate_counterexample :
    emitAggregateProgress (totalBytesOf [none, none])
        [⟨0, 100, 0, 0⟩, ⟨10, 10, 100, 0⟩]
      ≠ claimAggregateProgress [none, none] [⟨0, 100, 0, 0⟩, ⟨10, 10, 100, 0⟩]
  ∧ emitAggregateProgress (totalBytesOf [some 1]) [⟨50, 100, 50, 0⟩]
      ≠ claimAggregateProgress [some 1] [⟨50, 100, 50, 0⟩] := by
  exact ⟨by decide, by decide⟩

/-- C4 (amended): after every per-file slot update exactly one aggregate tuple
is emitted (one emission per event, and only the aggregate reaches the
caller's `onProgress`), computed as: `downloaded` = sum of per-file downloaded
bytes; `total` = the summed declared sizes when that sum is positive, else the
summed `max(total, downloaded)` fallback; `percent` = the byte ratio
`downloaded * 100 / total` clamped to at most 100 when the resolved `total` is
positive, and the average of the per-file percents only in the fully
degenerate case where even the fallback total is 0; `speed` = summed per-file
speeds. -/
theorem c4_aggregate_emission :
    (∀ (totalBytes : Nat) (slots : List FileProgressSlot),
      emitAggregateProgress totalBytes slots =
        { downloaded := aggregateDownloadedOf slots
          total := aggregateTotalOf totalBytes slots
          percent := min 100 (aggregatePercentOf totalBytes slots)
          speedBytesPerSec := aggregateSpeedOf slots })
  ∧ (∀ (totalBytes : Nat) (events : List BatchEvent) (slots : List FileProgressSlot),
      (batchEmissions totalBytes slots events).length = events.length) :=
  ⟨emitAggregateProgress_eq, batchEmissions_length⟩

/-- C5 counterexample: the aggregate `downloaded` is not monotone — with one
file of declared size 5 whose transport reports 6 bytes downloaded, the
emission sequence reports 6 and then 5 (the completion bookkeeping overwrites
the slot with the declared size) — and a tuple with `percent = 100` is
emitted through `progressHandler` while the live status is still `running`,
not `completed`. -/
theorem c5_progress_counterexample :
    (batchEmissions 5 [⟨0, 0, 0, 0⟩]
        [.progressUpdate 0 ⟨6, 5, 100, 0⟩, .fileDone 0 (some 5)]).map
      (fun p => p.downloaded) = [6, 5]
  ∧ ¬ (6 : Nat) ≤ 5
  ∧ progressHandler .running (emitAggregateProgress 5 [⟨5, 5, 100, 0⟩])
      = some (.running, emitAggregateProgress 5 [⟨5, 5, 100, 0⟩])
  ∧ (emitAggregateProgress 5 [⟨5, 5, 100, 0⟩]).percent = 100
  ∧ TaskStatus.running ≠ TaskStatus.completed := by
  refine ⟨by decide, by decide, by decide, by decide, by decide⟩

/-- C5 (amended): the aggregate `downloaded` is non-decreasing across
transport progress updates (per-file downloaded bytes only grow), and across
file-completion updates provided the declared size does not understate the
bytes already reported for that file (when it does, as in the counterexample,
the aggregate decreases); the emitted `percent` is 100 exactly when the
aggregate downloaded has reached the aggregate total (so it can hit 100 while
still `running`); and the `completed` upsert of `runTask` always carries
`percent = 100`. -/
theorem c5_progress_monotonicity :
    (∀ (totalBytes : Nat) (slots : List FileProgressSlot) (i : Nat)
        (p : FileProgressSlot) (h : i < slots.length),
        (slots.get ⟨i, h⟩).downloaded ≤ p.downloaded →
        (emitAggregateProgress totalBytes slots).downloaded ≤
          (emitAggregateProgress totalBytes
            (applyBatchEvent slots (.progressUpdate i p))).downloaded)
  ∧ (∀ (totalBytes : Nat) (slots : List FileProgressSlot) (i : Nat)
        (fileSize : Option Nat) (h : i < slots.length),
        (∀ n, fileSize = some n → n = 0 ∨ (slots.get ⟨i, h⟩).downloaded ≤ n) →
        (emitAggregateProgress totalBytes slots).downloaded ≤
          (emitAggregateProgress totalBytes
            (applyBatchEvent slots (.fileDone i fileSize))).downloaded)
  ∧ (∀ (totalBytes : Nat) (slots : List FileProgressSlot),
        (emitAggregateProgress totalBytes slots).total > 0 →
        ((emitAggregateProgress totalBytes slots).percent = 100 ↔
          (emitAggregateProgress totalBytes slots).total ≤
            (emitAggregateProgress totalBytes slots).downloaded))
  ∧ (∀ p : DownloadProgress, (markCompletedProgress p).percent = 100) := by
  refine ⟨?_, ?_, ?_, fun p => rfl⟩
  · intro totalBytes slots i p h hle
    simp only [emitAggregateProgress_eq, applyBatchEvent, aggregateDownloadedOf]
    exact sum_map_set_le _ slots i p h hle
  · intro totalBytes slots i fileSize h hsize
    simp only [emitAggregateProgress_eq, applyBatchEvent, aggregateDownloadedOf]
    apply sum_map_set_le _ slots i _ h
    rw [List.getD_eq_get slots _ h]
    show (slots.get ⟨i, h⟩).downloaded ≤ jsOrNat fileSize (slots.get ⟨i, h⟩).downloaded
    match fileSize, hsize with
    | none, _ => exact le_rfl
    | some n, hsize =>
      rcases hsize n rfl with h0 | hle
      · simp [jsOrNat, h0]
      · simp only [jsOrNat]
        split
        · exact le_rfl
        · exact hle
  · intro totalBytes slots htot
    simp only [emitAggregateProgress_eq] at htot ⊢
    simp only [aggregatePercentOf, if_pos htot]
    have hdiv : 100 ≤ aggregateDownloadedOf slots * 100 / aggregateTotalOf totalBytes slots ↔
        100 * aggregateTotalOf totalBytes slots ≤ aggregateDownloadedOf slots * 100 :=
      Nat.le_div_iff_mul_le htot
    constructor
    · intro hmin
      have hx : 100 ≤ aggregateDownloadedOf slots * 100 / aggregateTotalOf totalBytes slots := by
        by_contra hlt
        push_neg at hlt
        rw [min_eq_right (le_of_lt hlt)] at hmin
        omega
      have h2 := hdiv.mp hx
      omega
    · intro hle
      have h2 : 100 * aggregateTotalOf totalBytes slots ≤ aggregateDownloadedOf slots * 100 := by
        omega
      exact min_eq_left (hdiv.mpr h2)

/-- C5 witness: concrete instances for the monotonicity and percent parts. -/
theorem c5_progress_monotonicity_witness :
    (emitAggregateProgress 5 [⟨1, 5, 20, 0⟩]).downloaded ≤
      (emitAggregateProgress 5
        (applyBatchEvent [⟨1, 5, 20, 0⟩] (.progressUpdate 0 ⟨2, 5, 40, 0⟩))).downloaded
  ∧ (emitAggregateProgress 5 [⟨2, 5, 40, 0⟩]).downloaded ≤
      (emitAggregateProgress 5
        (applyBatchEvent [⟨2, 5, 40, 0⟩] (.fileDone 0 (some 5)))).downloaded
  ∧ ((emitAggregateProgress 5 [⟨5, 5, 100, 0⟩]).percent = 100 ↔
      (emitAggregateProgress 5 [⟨5, 5, 100, 0⟩]).total ≤
        (emitAggregateProgress 5 [⟨5, 5, 100, 0⟩]).downloaded) :=
  ⟨c5_progress_monotonicity.1 5 [⟨1, 5, 20, 0⟩] 0 ⟨2, 5, 40, 0⟩ (by decide) (by decide),
   c5_progress_monotonicity.2.1 5 [⟨2, 5, 40, 0⟩] 0 (some 5) (by decide)
     (by intro n hn; cases hn; exact Or.inr (by decide)),
   c5_progress_monotonicity.2.2.1 5 [⟨5, 5, 100, 0⟩] (by decide)⟩

/-- C6 counterexample: the code appends the timestamp to the `path.parse` base
name and sanitizes the combined candidate, which differs from the claim's
sanitize-then-append order — on the declared name `a/b.txt` the code yields
`b_<ts>.txt` (the parse drops the `a/` prefix) while the claimed recipe yields
`ab_<ts>.txt`. -/
theorem c6_filename_counterexample :
    buildDownloadFileName (some "a/b.txt") "20260207_182530_123"
      ≠ claimDownloadFileName (some "a/b.txt") "20260207_182530_123" := by
  decide

/-- C6 (amended): the on-disk name is built by `path.parse`-splitting the
declared display name (dropping any directory prefix), appending the
millisecond timestamp to the base, reattaching the extension, and sanitizing
the combined `<base>_<timestamp><ext>` — so whenever that candidate is already
sanitary the name is exactly `<base>_<timestamp><ext>`; when sanitizing the
combined candidate yields the empty string (e.g. a Windows-reserved base such
as `con.b.txt`), the fallback `file_<timestamp>` is used. -/
theorem c6_filename_amended (declaredName : Option String) (timestamp : String)
    (hclean : sanitizeFilename (addTimestampToFileName (jsOrString declaredName "file") timestamp)
        = addTimestampToFileName (jsOrString declaredName "file") timestamp) :
    buildDownloadFileName declaredName timestamp
        = addTimestampToFileName (jsOrString declaredName "file") timestamp
  ∧ buildDownloadFileName (some "con.b.txt") "20260207_182530_123"
      = "file_" ++ "20260207_182530_123" := by
  constructor
  · have hne : addTimestampToFileName (jsOrString declaredName "file") timestamp ≠ "" := by
      intro h0
      have hlen := congrArg String.length h0
      simp only [addTimestampToFileName, String.length_append] at hlen
      have h1 : ("_" : String).length = 1 := rfl
      have h2 : ("" : String).length = 0 := rfl
      omega
    simp [buildDownloadFileName, hclean, hne]
  · decide

/-- C6 witness: a clean declared name on which the sanitation hypothesis holds
by computation. -/
theorem c6_filename_amended_witness :
    sanitizeFilename
        (addTimestampToFileName (jsOrString (some "report.txt") "file") "20260207_182530_123")
      = addTimestampToFileName (jsOrString (some "report.txt") "file") "20260207_182530_123"
  ∧ (buildDownloadFileName (some "report.txt") "20260207_182530_123"
        = addTimestampToFileName (jsOrString (some "report.txt") "file") "20260207_182530_123"
    ∧ buildDownloadFileName (some "con.b.txt") "20260207_182530_123"
        = "file_" ++ "20260207_182530_123") :=
  ⟨by decide, c6_filename_amended (some "report.txt") "20260207_182530_123" (by decide)⟩

/-- C7 counterexample: the two entry points do not run the batch with the same
effective options.  With a media-kind filter the link path rejects a photo
seed as `noDownloadableContent` while the bot-message path downloads it (it
forwards no `allowedMediaTypes`); with `albumConcurrency = 1` on a four-file
album the link path plans 1 worker while the bot-message path plans 3 (it
drops `albumConcurrency`, so the default applies). -/
theorem c7_entry_points_counterexample :
    downloadFile (fun m => [m]) { id := 10, photo := true }
        { onProgress := some 1, albumConcurrency := some (.int 5) }
      ≠ downloadFileByMessageLink (fun m => [m]) { id := 10, photo := true }
          { onProgress := some 1, albumConcurrency := some (.int 5),
            allowedMediaTypes := some [.video] }
  ∧ downloadFile (fun m => [m, m, m, m])
        { id := 11,
          document := some { fileNameAttr := some "d.bin", size := some 4, mimeType := none } }
        { onProgress := some 1, albumConcurrency := some (.int 1) }
      ≠ downloadFileByMessageLink (fun m => [m, m, m, m])
          { id := 11,
            document := some { fileNameAttr := some "d.bin", size := some 4, mimeType := none } }
          { onProgress := some 1, albumConcurrency := some (.int 1),
            allowedMediaTypes := none } := by
  exact ⟨by decide, by decide⟩

/-- C7 (amended): both entry points converge on the same album resolution and
the same `downloadSourceMessages`, but they forward different options: the
bot-message path passes only the progress callback (so no media-kind filter
applies and the album concurrency falls back to the default), behaving exactly
as the link path would with its options stripped down to `onProgress`; the two
produce the same batch result precisely when that stripping makes no
difference. -/
theorem c7_entry_points_refinement :
    (∀ (resolveBatch : SourceMsg → List SourceMsg) (seedMessage : SourceMsg)
        (options : DownloadOptions),
        downloadFile resolveBatch seedMessage options =
          downloadFileByMessageLink resolveBatch seedMessage
            { onProgress := options.onProgress, albumConcurrency := none,
              allowedMediaTypes := none })
  ∧ (∀ (resolveBatch : SourceMsg → List SourceMsg) (seedMessage : SourceMsg)
        (options : LinkDownloadOptions),
        downloadFileByMessageLink resolveBatch seedMessage options =
          downloadSourceMessages (resolveBatch seedMessage) options) :=
  ⟨fun _ _ _ => rfl, fun _ _ _ => rfl⟩

/-! ## Task registry: cancelTask -/

theorem lookupTask_id (store : TaskStore) (taskId : String) (t : TaskRecord)
    (h : lookupTask store taskId = some t) : t.id = taskId := by
  have := List.find?_some h
  simpa using this

theorem not_mem_filter_ne (taskId : String) (l : List String) :
    taskId ∉ l.filter (fun pid => !(pid == taskId)) := by
  intro hmem
  have := List.of_mem_filter hmem
  simp at this

theorem find?_map_replace (taskId : String) (t2 : TaskRecord) (h2 : t2.id = taskId) :
    ∀ (l : List TaskRecord) (t : TaskRecord),
      l.find? (fun u => u.id == taskId) = some t →
      (l.map (fun u => if u.id == taskId then t2 else u)).find? (fun u => u.id == taskId)
        = some t2 := by
  intro l
  induction l with
  | nil => intro t h; simp at h
  | cons u l ih =>
    intro t h
    cases hu : (u.id == taskId) with
    | true =>
      rw [List.map_cons, if_pos hu, List.find?_cons_of_pos _ (by simp [h2])]
    | false =>
      rw [List.find?_cons_of_neg _ (by simp [hu])] at h
      rw [List.map_cons, if_neg (by simp [hu]), List.find?_cons_of_neg _ (by simp [hu])]
      exact ih t h

/-- C3: `cancelTask` throws `notFound` on an unknown id, `alreadyFinished` on
a `completed` or `failed` task, returns the record unchanged without
rescheduling on an already-`canceled` task, and on an active task stamps
status `canceled`, `result.error := reason` and a fresh `expiresAt` into the
stored record — dropping the payload and re-running scheduler admission
exactly when the prior status was `pending`. -/
theorem c3_cancelTask_spec (now : Nat) (store : TaskStore) (taskId reason : String) :
    (lookupTask (cleanupExpiredTasks now store) taskId = none →
      cancelTask now store taskId reason = .error .notFound)
  ∧ ∀ task, lookupTask (cleanupExpiredTasks now store) taskId = some task →
      ((task.status = .completed ∨ task.status = .failed →
          cancelTask now store taskId reason = .error .alreadyFinished)
      ∧ (task.status = .canceled →
          cancelTask now store taskId reason =
            .ok (cleanupExpiredTasks now store, task, false))
      ∧ (task.status = .pending ∨ task.status = .running →
          ∃ store2 rescheduled,
            cancelTask now store taskId reason =
                .ok (store2, canceledTaskRecord now reason task, rescheduled)
            ∧ (canceledTaskRecord now reason task).status = .canceled
            ∧ (∃ r, (canceledTaskRecord now reason task).result = some r
                ∧ r.error = some reason)
            ∧ (canceledTaskRecord now reason task).expiresAt = some (getExpiresAt now)
            ∧ lookupTask store2 taskId = some (canceledTaskRecord now reason task)
            ∧ (rescheduled = true ↔ task.status = .pending)
            ∧ (task.status = .pending → taskId ∉ store2.taskPayloads)
            ∧ (task.status = .running →
                store2.taskPayloads = (cleanupExpiredTasks now store).taskPayloads))) := by
  constructor
  · intro hnone
    simp only [cancelTask, hnone]
  · intro task hsome
    have hid : task.id = taskId := lookupTask_id _ _ _ hsome
    have hid2 : (canceledTaskRecord now reason task).id = taskId := by
      simpa [canceledTaskRecord] using hid
    refine ⟨?_, ?_, ?_⟩
    · intro hfin
      simp only [cancelTask, hsome]
      rcases hfin with h | h <;> simp [h]
    · intro hcanc
      simp only [cancelTask, hsome]
      simp [hcanc]
    · intro hactive
      rcases hactive with h | h
      · have hstep : cancelTask now store taskId reason =
            .ok ({ storeReplaceTask (cleanupExpiredTasks now store) taskId
                     (canceledTaskRecord now reason task) with
                   taskPayloads := (cleanupExpiredTasks now store).taskPayloads.filter
                     (fun pid => !(pid == taskId)) },
                 canceledTaskRecord now reason task, true) := by
          simp only [cancelTask, hsome]
          rw [if_neg (by simp [h]), if_neg (by simp [h]), if_pos h]
          rfl
        refine ⟨_, true, hstep, rfl, ⟨_, rfl, rfl⟩, rfl, ?_, by simp [h],
          fun _ => not_mem_filter_ne _ _, ?_⟩
        · exact find?_map_replace taskId _ hid2 _ task hsome
        · intro hr; rw [h] at hr; cases hr
      · have hstep : cancelTask now store taskId reason =
            .ok (storeReplaceTask (cleanupExpiredTasks now store) taskId
                   (canceledTaskRecord now reason task),
                 canceledTaskRecord now reason task, false) := by
          simp only [cancelTask, hsome]
          rw [if_neg (by simp [h]), if_neg (by simp [h]), if_neg (by rw [h]; intro hc; cases hc)]
        refine ⟨_, false, hstep, rfl, ⟨_, rfl, rfl⟩, rfl, ?_, by simp [h], ?_, fun _ => rfl⟩
        · exact find?_map_replace taskId _ hid2 _ task hsome
        · intro hp; rw [h] at hp; cases hp

/-- C3 witness: a concrete store with one task of each relevant status. -/
theorem c3_cancelTask_spec_witness :
    cancelTask 0
        { tasks := [{ id := "a", status := .completed }, { id := "b", status := .canceled },
            { id := "c", status := .pending }, { id := "d", status := .running }],
          taskPayloads := ["c", "d"] } "z" "stop" = .error .notFound
  ∧ cancelTask 0
        { tasks := [{ id := "a", status := .completed }, { id := "b", status := .canceled },
            { id := "c", status := .pending }, { id := "d", status := .running }],
          taskPayloads := ["c", "d"] } "a" "stop" = .error .alreadyFinished
  ∧ (∃ store2 rescheduled,
      cancelTask 0
          { tasks := [{ id := "a", status := .completed }, { id := "b", status := .canceled },
              { id := "c", status := .pending }, { id := "d", status := .running }],
            taskPayloads := ["c", "d"] } "c" "stop" =
        .ok (store2, canceledTaskRecord 0 "stop" { id := "c", status := .pending },
          rescheduled)) := by
  refine ⟨?_, ?_, ?_⟩
  · exact (c3_cancelTask_spec 0
      { tasks := [{ id := "a", status := .completed }, { id := "b", status := .canceled },
          { id := "c", status := .pending }, { id := "d", status := .running }],
        taskPayloads := ["c", "d"] } "z" "stop").1 (by decide)
  · exact ((c3_cancelTask_spec 0
      { tasks := [{ id := "a", status := .completed }, { id := "b", status := .canceled },
          { id := "c", status := .pending }, { id := "d", status := .running }],
        taskPayloads := ["c", "d"] } "a" "stop").2 { id := "a", status := .completed }
      (by decide)).1 (Or.inl rfl)
  · obtain ⟨store2, rescheduled, heq, -⟩ :=
      ((c3_cancelTask_spec 0
        { tasks := [{ id := "a", status := .completed }, { id := "b", status := .canceled },
            { id := "c", status := .pending }, { id := "d", status := .running }],
          taskPayloads := ["c", "d"] } "c" "stop").2 { id := "c", status := .pending }
        (by decide)).2.2 (Or.inl rfl)
    exact ⟨store2, rescheduled, heq⟩

/-! ## Scheduler state machine -/

theorem mem_of_getElem_some : ∀ (s : List TaskCell) (i : Nat) (c : TaskCell),
    s[i]? = some c → c ∈ s := by
  intro s
  induction s with
  | nil => intro i c h; simp at h
  | cons x s ih =>
    intro i c h
    cases i with
    | zero => simp at h; subst h; exact List.mem_cons_self x s
    | succ j => simp at h; exact List.mem_cons_of_mem x (ih j c h)

theorem updateCell_getElem_self : ∀ (s : List TaskCell) (i : Nat) (f : TaskCell → TaskCell)
    (c : TaskCell), s[i]? = some c → (updateCell s i f)[i]? = some (f c) := by
  intro s
  induction s with
  | nil => intro i f c h; simp at h
  | cons x s ih =>
    intro i f c h
    cases i with
    | zero => simp at h; subst h; simp [updateCell]
    | succ j => simp at h ⊢; simp only [updateCell]; simpa using ih j f c h

theorem updateCell_getElem_ne : ∀ (s : List TaskCell) (i j : Nat) (f : TaskCell → TaskCell),
    j ≠ i → (updateCell s i f)[j]? = s[j]? := by
  intro s
  induction s with
  | nil => intro i j f hne; simp [updateCell]
  | cons x s ih =>
    intro i j f hne
    cases i with
    | zero =>
      cases j with
      | zero => exact absurd rfl hne
      | succ k => simp [updateCell]
    | succ i2 =>
      cases j with
      | zero => simp [updateCell]
      | succ k =>
        simp only [updateCell, List.getElem?_cons_succ]
        exact ih i2 k f (fun hk => hne (by rw [hk]))

theorem mem_updateCell : ∀ (s : List TaskCell) (i : Nat) (f : TaskCell → TaskCell)
    (x : TaskCell), x ∈ updateCell s i f → x ∈ s ∨ ∃ c, s[i]? = some c ∧ x = f c := by
  intro s
  induction s with
  | nil => intro i f x h; simp [updateCell] at h
  | cons y s ih =>
    intro i f x h
    cases i with
    | zero =>
      simp only [updateCell] at h
      rcases List.mem_cons.mp h with h1 | h1
      · exact Or.inr ⟨y, by simp, h1⟩
      · exact Or.inl (List.mem_cons_of_mem y h1)
    | succ j =>
      simp only [updateCell] at h
      rcases List.mem_cons.mp h with h1 | h1
      · exact Or.inl (by simp [h1])
      · rcases ih j f x h1 with h2 | ⟨c, hc, hx⟩
        · exact Or.inl (List.mem_cons_of_mem y h2)
        · exact Or.inr ⟨c, by simpa using hc, hx⟩

theorem countP_updateCell (p : TaskCell → Bool) :
    ∀ (s : List TaskCell) (i : Nat) (f : TaskCell → TaskCell) (c : TaskCell),
      s[i]? = some c →
      (updateCell s i f).countP p + (if p c then 1 else 0)
        = s.countP p + (if p (f c) then 1 else 0) := by
  intro s
  induction s with
  | nil => intro i f c h; simp at h
  | cons x s ih =>
    intro i f c h
    cases i with
    | zero =>
      simp at h; subst h
      simp only [updateCell, List.countP_cons]
      omega
    | succ j =>
      simp at h
      simp only [updateCell, List.countP_cons]
      have := ih j f c h
      omega

theorem countP_le_of_imp (p q : TaskCell → Bool) :
    ∀ s : List TaskCell, (∀ x ∈ s, p x = true → q x = true) →
      s.countP p ≤ s.countP q := by
  intro s
  induction s with
  | nil => intro h; simp
  | cons x s ih =>
    intro h
    simp only [List.countP_cons]
    have ht := ih (fun y hy => h y (List.mem_cons_of_mem x hy))
    have hx := h x (List.mem_cons_self x s)
    cases hp : p x with
    | false => cases hq : q x <;> simp <;> omega
    | true => rw [hx hp]; simp; omega

theorem countP_lt_of_getElem (p q : TaskCell → Bool) :
    ∀ (s : List TaskCell) (i : Nat) (c : TaskCell), s[i]? = some c →
      p c = false → q c = true → (∀ x ∈ s, p x = true → q x = true) →
      s.countP p < s.countP q := by
  intro s
  induction s with
  | nil => intro i c h; simp at h
  | cons x s ih =>
    intro i c h hp hq himp
    cases i with
    | zero =>
      simp at h; subst h
      have hrest := countP_le_of_imp p q s (fun y hy => himp y (List.mem_cons_of_mem x hy))
      simp only [List.countP_cons, hp, hq]
      simp
      omega
    | succ j =>
      simp at h
      simp only [List.countP_cons]
      have ht := ih j c h hp hq (fun y hy => himp y (List.mem_cons_of_mem x hy))
      have hx := himp x (List.mem_cons_self x s)
      cases hpx : p x with
      | false => cases q x <;> simp <;> omega
      | true => rw [hx hpx]; simp; omega

theorem runningCount_le_admittedCount (s : SchedState)
    (hinv : ∀ c ∈ s, c.status = .running → c.admitted = true) :
    runningCount s ≤ admittedCount s := by
  apply countP_le_of_imp
  intro c hc hrun
  exact hinv c hc (by simpa using hrun)

theorem admittedCount_updateCell_same (s : SchedState) (i : Nat) (f : TaskCell → TaskCell)
    (c : TaskCell) (hc : s[i]? = some c) (hsame : (f c).admitted = c.admitted) :
    admittedCount (updateCell s i f) = admittedCount s := by
  have h2 : admittedCount (updateCell s i f) + (if c.admitted then 1 else 0)
      = admittedCount s + (if (f c).admitted then 1 else 0) :=
    countP_updateCell (fun c => c.admitted) s i f c hc
  rw [hsame] at h2
  omega

theorem inv2_updateCell (s : SchedState) (i : Nat) (f : TaskCell → TaskCell)
    (hmem : ∀ c ∈ s, (c.status = .running → c.admitted = true) ∧
      (c.removed = true → isTaskFinished c.status = true))
    (hf : ∀ c, s[i]? = some c →
      (((f c).status = .running → (f c).admitted = true) ∧
        ((f c).removed = true → isTaskFinished (f c).status = true))) :
    ∀ x ∈ updateCell s i f, (x.status = .running → x.admitted = true) ∧
      (x.removed = true → isTaskFinished x.status = true) := by
  intro x hx
  rcases mem_updateCell s i f x hx with h | ⟨c, hc, hxeq⟩
  · exact hmem x h
  · subst hxeq; exact hf c hc

theorem schedStep_preserves_inv (s : SchedState) (l : SchedLabel) (sNext : SchedState)
    (hstep : SchedStep s l sNext) (hinv : SchedInv s) : SchedInv sNext := by
  obtain ⟨hcap, hmem⟩ := hinv
  cases hstep with
  | create =>
    refine ⟨?_, ?_⟩
    · unfold admittedCount at hcap ⊢
      rw [List.countP_append]
      simpa using hcap
    · intro c hc
      rcases List.mem_append.mp hc with h | h
      · exact hmem c h
      · simp at h; subst h
        exact ⟨fun h2 => (nomatch h2), fun h2 => (nomatch h2)⟩
  | admitTask i c hc hrem hstatus hpay hadm hcap2 =>
    refine ⟨?_, ?_⟩
    · have h2 : admittedCount (updateCell s i (fun c => { c with admitted := true }))
          + (if c.admitted then 1 else 0) = admittedCount s + 1 :=
        countP_updateCell (fun c => c.admitted) s i _ c hc
      rw [hadm] at h2
      simp at h2
      omega
    · refine inv2_updateCell s i _ hmem ?_
      intro c2 hc2
      have hceq : c2 = c := by rw [hc] at hc2; exact (Option.some.inj hc2).symm
      subst hceq
      exact ⟨fun _ => rfl, fun h2 => (nomatch hrem ▸ h2)⟩
  | startRun i c hc hrem hadm hstatus hpay =>
    refine ⟨?_, ?_⟩
    · rw [admittedCount_updateCell_same s i _ c hc rfl]; exact hcap
    · refine inv2_updateCell s i _ hmem ?_
      intro c2 hc2
      have hceq : c2 = c := by rw [hc] at hc2; exact (Option.some.inj hc2).symm
      subst hceq
      exact ⟨fun _ => hadm, fun h2 => (nomatch hrem ▸ h2)⟩
  | startMissingPayload i c hc hrem hadm hstatus hpay =>
    refine ⟨?_, ?_⟩
    · rw [admittedCount_updateCell_same s i _ c hc rfl]; exact hcap
    · refine inv2_updateCell s i _ hmem ?_
      intro c2 hc2
      exact ⟨fun h2 => (nomatch h2), fun _ => rfl⟩
  | startAlreadyCanceled i c hc hrem hadm hstatus =>
    exact ⟨hcap, hmem⟩
  | progressEmit i c hc hrem hadm hstatus =>
    exact ⟨hcap, hmem⟩
  | finishComplete i c hc hrem hadm hstatus =>
    refine ⟨?_, ?_⟩
    · rw [admittedCount_updateCell_same s i _ c hc rfl]; exact hcap
    · refine inv2_updateCell s i _ hmem ?_
      intro c2 hc2
      exact ⟨fun h2 => (nomatch h2), fun _ => rfl⟩
  | finishFailed i c hc hrem hadm hstatus =>
    refine ⟨?_, ?_⟩
    · rw [admittedCount_updateCell_same s i _ c hc rfl]; exact hcap
    · refine inv2_updateCell s i _ hmem ?_
      intro c2 hc2
      exact ⟨fun h2 => (nomatch h2), fun _ => rfl⟩
  | finishCanceled i c hc hrem hadm hstatus =>
    refine ⟨?_, ?_⟩
    · rw [admittedCount_updateCell_same s i _ c hc rfl]; exact hcap
    · refine inv2_updateCell s i _ hmem ?_
      intro c2 hc2
      have hceq : c2 = c := by rw [hc] at hc2; exact (Option.some.inj hc2).symm
      subst hceq
      refine ⟨fun h2 => ?_, fun h2 => ?_⟩
      · rw [hstatus] at h2; cases h2
      · rw [hrem] at h2; cases h2
  | cancelPending i c hc hrem hstatus =>
    refine ⟨?_, ?_⟩
    · rw [admittedCount_updateCell_same s i _ c hc rfl]; exact hcap
    · refine inv2_updateCell s i _ hmem ?_
      intro c2 hc2
      exact ⟨fun h2 => (nomatch h2), fun _ => rfl⟩
  | cancelRunning i c hc hrem hstatus =>
    refine ⟨?_, ?_⟩
    · rw [admittedCount_updateCell_same s i _ c hc rfl]; exact hcap
    · refine inv2_updateCell s i _ hmem ?_
      intro c2 hc2
      exact ⟨fun h2 => (nomatch h2), fun _ => rfl⟩
  | settle i c hc hadm hdone =>
    refine ⟨?_, ?_⟩
    · have h2 : admittedCount (updateCell s i (fun c => { c with admitted := false }))
          + (if c.admitted then 1 else 0) = admittedCount s + 0 :=
        countP_updateCell (fun c => c.admitted) s i _ c hc
      rw [hadm] at h2
      simp at h2
      omega
    · refine inv2_updateCell s i _ hmem ?_
      intro c2 hc2
      have hceq : c2 = c := by rw [hc] at hc2; exact (Option.some.inj hc2).symm
      subst hceq
      refine ⟨fun h2 => ?_, fun h2 => (hmem c2 (mem_of_getElem_some s i c2 hc)).2 h2⟩
      exfalso
      rcases hdone with hfin | hrem2
      · rw [h2] at hfin; cases hfin
      · have hfin2 := (hmem c2 (mem_of_getElem_some s i c2 hc)).2 hrem2
        rw [h2] at hfin2; cases hfin2
  | sweep i c hc hrem hfin =>
    refine ⟨?_, ?_⟩
    · rw [admittedCount_updateCell_same s i _ c hc rfl]; exact hcap
    · refine inv2_updateCell s i _ hmem ?_
      intro c2 hc2
      have hceq : c2 = c := by rw [hc] at hc2; exact (Option.some.inj hc2).symm
      subst hceq
      refine ⟨fun h2 => ?_, fun _ => hfin⟩
      exfalso; rw [h2] at hfin; cases hfin

theorem schedReachable_inv (s : SchedState) (h : SchedReachable s) : SchedInv s := by
  induction h with
  | init =>
    exact ⟨by simp [admittedCount], by intro c hc; simp at hc⟩
  | step s l sNext hreach hstep ih =>
    exact schedStep_preserves_inv s l sNext hstep ih

/-- C1: along every execution of the scheduler the number of tasks with status
`running` never exceeds `MAX_CONCURRENT_RUNNING_TASKS`, and whenever a step
moves a task to `running`, the pre-state had running headroom and that task
was `pending` with a stored payload. -/
theorem c1_running_ceiling :
    (∀ s : SchedState, SchedReachable s →
        runningCount s ≤ MAX_CONCURRENT_RUNNING_TASKS)
  ∧ (∀ (s : SchedState) (l : SchedLabel) (sNext : SchedState) (i : Nat)
        (c cNext : TaskCell), SchedReachable s → SchedStep s l sNext →
        s[i]? = some c → sNext[i]? = some cNext →
        c.status ≠ .running → cNext.status = .running →
        runningCount s < MAX_CONCURRENT_RUNNING_TASKS
          ∧ c.status = .pending ∧ c.hasPayload = true) := by
  constructor
  · intro s hreach
    obtain ⟨hcap, hmem⟩ := schedReachable_inv s hreach
    exact le_trans (runningCount_le_admittedCount s (fun c hc => (hmem c hc).1)) hcap
  · intro s l sNext i c cNext hreach hstep hc hcNext hnotrun hrun
    obtain ⟨hcap, hmem⟩ := schedReachable_inv s hreach
    cases hstep with
    | create =>
      have hi : i < s.length := by
        by_contra hge
        rw [List.getElem?_eq_none (Nat.le_of_not_lt hge)] at hc
        cases hc
      rw [List.getElem?_append_left hi, hc] at hcNext
      obtain rfl := Option.some.inj hcNext
      exact absurd hrun hnotrun
    | admitTask j c2 hc2 hrem hstatus hpay hadm hcap2 =>
      by_cases hij : i = j
      · subst hij
        have hceq : c2 = c := by rw [hc2] at hc; exact (Option.some.inj hc)
        subst hceq
        rw [updateCell_getElem_self s i _ c2 hc2] at hcNext
        obtain rfl := Option.some.inj hcNext
        exact absurd (show c2.status = .running from hrun) hnotrun
      · rw [updateCell_getElem_ne s j i _ hij, hc] at hcNext
        obtain rfl := Option.some.inj hcNext
        exact absurd hrun hnotrun
    | startRun j c2 hc2 hrem hadm hstatus hpay =>
      by_cases hij : i = j
      · subst hij
        have hceq : c2 = c := by rw [hc2] at hc; exact (Option.some.inj hc)
        subst hceq
        refine ⟨?_, hstatus, hpay⟩
        have hlt := countP_lt_of_getElem (fun x => decide (x.status = TaskStatus.running))
          (fun x => x.admitted) s i c2 hc2 (by simp [hstatus]) hadm
          (fun x hx hp => (hmem x hx).1 (of_decide_eq_true hp))
        exact lt_of_lt_of_le hlt hcap
      · rw [updateCell_getElem_ne s j i _ hij, hc] at hcNext
        obtain rfl := Option.some.inj hcNext
        exact absurd hrun hnotrun
    | startMissingPayload j c2 hc2 hrem hadm hstatus hpay =>
      by_cases hij : i = j
      · subst hij
        rw [updateCell_getElem_self s i _ c2 hc2] at hcNext
        obtain rfl := Option.some.inj hcNext
        exact (nomatch (show TaskStatus.failed = TaskStatus.running from hrun))
      · rw [updateCell_getElem_ne s j i _ hij, hc] at hcNext
        obtain rfl := Option.some.inj hcNext
        exact absurd hrun hnotrun
    | startAlreadyCanceled j c2 hc2 hrem hadm hstatus =>
      rw [hc] at hcNext
      obtain rfl := Option.some.inj hcNext
      exact absurd hrun hnotrun
    | progressEmit j c2 hc2 hrem hadm hstatus =>
      rw [hc] at hcNext
      obtain rfl := Option.some.inj hcNext
      exact absurd hrun hnotrun
    | finishComplete j c2 hc2 hrem hadm hstatus =>
      by_cases hij : i = j
      · subst hij
        rw [updateCell_getElem_self s i _ c2 hc2] at hcNext
        obtain rfl := Option.some.inj hcNext
        exact (nomatch (show TaskStatus.completed = TaskStatus.running from hrun))
      · rw [updateCell_getElem_ne s j i _ hij, hc] at hcNext
        obtain rfl := Option.some.inj hcNext
        exact absurd hrun hnotrun
    | finishFailed j c2 hc2 hrem hadm hstatus =>
      by_cases hij : i = j
      · subst hij
        rw [updateCell_getElem_self s i _ c2 hc2] at hcNext
        obtain rfl := Option.some.inj hcNext
        exact (nomatch (show TaskStatus.failed = TaskStatus.running from hrun))
      · rw [updateCell_getElem_ne s j i _ hij, hc] at hcNext
        obtain rfl := Option.some.inj hcNext
        exact absurd hrun hnotrun
    | finishCanceled j c2 hc2 hrem hadm hstatus =>
      by_cases hij : i = j
      · subst hij
        have hceq : c2 = c := by rw [hc2] at hc; exact (Option.some.inj hc)
        subst hceq
        rw [updateCell_getElem_self s i _ c2 hc2] at hcNext
        obtain rfl := Option.some.inj hcNext
        exact absurd (show c2.status = .running from hrun) hnotrun
      · rw [updateCell_getElem_ne s j i _ hij, hc] at hcNext
        obtain rfl := Option.some.inj hcNext
        exact absurd hrun hnotrun
    | cancelPending j c2 hc2 hrem hstatus =>
      by_cases hij : i = j
      · subst hij
        rw [updateCell_getElem_self s i _ c2 hc2] at hcNext
        obtain rfl := Option.some.inj hcNext
        exact (nomatch (show TaskStatus.canceled = TaskStatus.running from hrun))
      · rw [updateCell_getElem_ne s j i _ hij, hc] at hcNext
        obtain rfl := Option.some.inj hcNext
        exact absurd hrun hnotrun
    | cancelRunning j c2 hc2 hrem hstatus =>
      by_cases hij : i = j
      · subst hij
        rw [updateCell_getElem_self s i _ c2 hc2] at hcNext
        obtain rfl := Option.some.inj hcNext
        exact (nomatch (show TaskStatus.canceled = TaskStatus.running from hrun))
      · rw [updateCell_getElem_ne s j i _ hij, hc] at hcNext
        obtain rfl := Option.some.inj hcNext
        exact absurd hrun hnotrun
    | settle j c2 hc2 hadm hdone =>
      by_cases hij : i = j
      · subst hij
        have hceq : c2 = c := by rw [hc2] at hc; exact (Option.some.inj hc)
        subst hceq
        rw [updateCell_getElem_self s i _ c2 hc2] at hcNext
        obtain rfl := Option.some.inj hcNext
        exact absurd (show c2.status = .running from hrun) hnotrun
      · rw [updateCell_getElem_ne s j i _ hij, hc] at hcNext
        obtain rfl := Option.some.inj hcNext
        exact absurd hrun hnotrun
    | sweep j c2 hc2 hrem hfin =>
      by_cases hij : i = j
      · subst hij
        have hceq : c2 = c := by rw [hc2] at hc; exact (Option.some.inj hc)
        subst hceq
        rw [updateCell_getElem_self s i _ c2 hc2] at hcNext
        obtain rfl := Option.some.inj hcNext
        exact absurd (show c2.status = .running from hrun) hnotrun
      · rw [updateCell_getElem_ne s j i _ hij, hc] at hcNext
        obtain rfl := Option.some.inj hcNext
        exact absurd hrun hnotrun

/-- C1 witness: the empty state, and the concrete admission of a created task
into an otherwise empty scheduler. -/
theorem c1_running_ceiling_witness :
    runningCount ([] : SchedState) ≤ MAX_CONCURRENT_RUNNING_TASKS
  ∧ (runningCount [⟨.pending, true, true, false⟩] < MAX_CONCURRENT_RUNNING_TASKS
      ∧ TaskCell.status ⟨.pending, true, true, false⟩ = .pending
      ∧ TaskCell.hasPayload ⟨.pending, true, true, false⟩ = true) := by
  constructor
  · exact c1_running_ceiling.1 [] SchedReachable.init
  · have hreach1 : SchedReachable [⟨.pending, true, false, false⟩] :=
      SchedReachable.step [] _ _ SchedReachable.init (SchedStep.create [])
    have hreach2 : SchedReachable [⟨.pending, true, true, false⟩] :=
      SchedReachable.step _ _ _ hreach1
        (SchedStep.admitTask [⟨.pending, true, false, false⟩] 0 ⟨.pending, true, false, false⟩
          rfl rfl rfl rfl rfl (by decide))
    exact c1_running_ceiling.2 [⟨.pending, true, true, false⟩] (.upsert 0 .running)
      [⟨.running, true, true, false⟩] 0 ⟨.pending, true, true, false⟩
      ⟨.running, true, true, false⟩ hreach2
      (SchedStep.startRun [⟨.pending, true, true, false⟩] 0 ⟨.pending, true, true, false⟩
        rfl rfl rfl rfl rfl)
      rfl rfl (by decide) rfl

theorem schedStep_canceled_sticky (s : SchedState) (l : SchedLabel) (sNext : SchedState)
    (i : Nat) (hstep : SchedStep s l sNext)
    (hcanc : cellStatus s i = some .canceled) :
    cellStatus sNext i = some .canceled
      ∧ ∀ st : TaskStatus, l = .upsert i st → st = .canceled := by
  obtain ⟨cc, hcc, hccst⟩ : ∃ cc, s[i]? = some cc ∧ cc.status = .canceled := by
    unfold cellStatus at hcanc
    cases h : s[i]? with
    | none => rw [h] at hcanc; cases hcanc
    | some cc =>
      rw [h] at hcanc
      simp at hcanc
      exact ⟨cc, rfl, hcanc⟩
  have hlen : i < s.length := by
    by_contra hge
    rw [List.getElem?_eq_none (Nat.le_of_not_lt hge)] at hcc
    cases hcc
  cases hstep with
  | create =>
    refine ⟨?_, ?_⟩
    · unfold cellStatus
      rw [List.getElem?_append_left hlen]
      exact hcanc
    · intro st hl
      injection hl with h1 h2
      exact absurd h1 (by omega)
  | admitTask j c2 hc2 hrem hstatus hpay hadm hcap2 =>
    refine ⟨?_, fun st hl => (nomatch hl)⟩
    by_cases hij : i = j
    · subst hij
      have hceq : c2 = cc := by rw [hc2] at hcc; exact (Option.some.inj hcc)
      subst hceq
      rw [hstatus] at hccst
      exact (nomatch hccst)
    · unfold cellStatus
      rw [updateCell_getElem_ne s j i _ hij]
      exact hcanc
  | startRun j c2 hc2 hrem hadm hstatus hpay =>
    by_cases hij : i = j
    · subst hij
      have hceq : c2 = cc := by rw [hc2] at hcc; exact (Option.some.inj hcc)
      subst hceq
      rw [hstatus] at hccst
      exact (nomatch hccst)
    · refine ⟨?_, ?_⟩
      · unfold cellStatus
        rw [updateCell_getElem_ne s j i _ hij]
        exact hcanc
      · intro st hl
        injection hl with h1 h2
        exact absurd h1 (fun h => hij h.symm)
  | startMissingPayload j c2 hc2 hrem hadm hstatus hpay =>
    by_cases hij : i = j
    · subst hij
      have hceq : c2 = cc := by rw [hc2] at hcc; exact (Option.some.inj hcc)
      subst hceq
      rw [hstatus] at hccst
      exact (nomatch hccst)
    · refine ⟨?_, ?_⟩
      · unfold cellStatus
        rw [updateCell_getElem_ne s j i _ hij]
        exact hcanc
      · intro st hl
        injection hl with h1 h2
        exact absurd h1 (fun h => hij h.symm)
  | startAlreadyCanceled j c2 hc2 hrem hadm hstatus =>
    exact ⟨hcanc, fun st hl => by injection hl with h1 h2; exact h2.symm⟩
  | progressEmit j c2 hc2 hrem hadm hstatus =>
    by_cases hij : i = j
    · subst hij
      have hceq : c2 = cc := by rw [hc2] at hcc; exact (Option.some.inj hcc)
      subst hceq
      rw [hstatus] at hccst
      exact (nomatch hccst)
    · refine ⟨hcanc, ?_⟩
      intro st hl
      injection hl with h1 h2
      exact absurd h1 (fun h => hij h.symm)
  | finishComplete j c2 hc2 hrem hadm hstatus =>
    by_cases hij : i = j
    · subst hij
      have hceq : c2 = cc := by rw [hc2] at hcc; exact (Option.some.inj hcc)
      subst hceq
      rw [hstatus] at hccst
      exact (nomatch hccst)
    · refine ⟨?_, ?_⟩
      · unfold cellStatus
        rw [updateCell_getElem_ne s j i _ hij]
        exact hcanc
      · intro st hl
        injection hl with h1 h2
        exact absurd h1 (fun h => hij h.symm)
  | finishFailed j c2 hc2 hrem hadm hstatus =>
    by_cases hij : i = j
    · subst hij
      have hceq : c2 = cc := by rw [hc2] at hcc; exact (Option.some.inj hcc)
      subst hceq
      rw [hstatus] at hccst
      exact (nomatch hccst)
    · refine ⟨?_, ?_⟩
      · unfold cellStatus
        rw [updateCell_getElem_ne s j i _ hij]
        exact hcanc
      · intro st hl
        injection hl with h1 h2
        exact absurd h1 (fun h => hij h.symm)
  | finishCanceled j c2 hc2 hrem hadm hstatus =>
    refine ⟨?_, fun st hl => by injection hl with h1 h2; exact h2.symm⟩
    by_cases hij : i = j
    · subst hij
      have hceq : c2 = cc := by rw [hc2] at hcc; exact (Option.some.inj hcc)
      subst hceq
      unfold cellStatus
      rw [updateCell_getElem_self s i _ c2 hcc]
      exact congrArg some (show TaskCell.status _ = _ from hccst)
    · unfold cellStatus
      rw [updateCell_getElem_ne s j i _ hij]
      exact hcanc
  | cancelPending j c2 hc2 hrem hstatus =>
    by_cases hij : i = j
    · subst hij
      have hceq : c2 = cc := by rw [hc2] at hcc; exact (Option.some.inj hcc)
      subst hceq
      rw [hstatus] at hccst
      exact (nomatch hccst)
    · refine ⟨?_, fun st hl => by injection hl with h1 h2; exact h2.symm⟩
      unfold cellStatus
      rw [updateCell_getElem_ne s j i _ hij]
      exact hcanc
  | cancelRunning j c2 hc2 hrem hstatus =>
    by_cases hij : i = j
    · subst hij
      have hceq : c2 = cc := by rw [hc2] at hcc; exact (Option.some.inj hcc)
      subst hceq
      rw [hstatus] at hccst
      exact (nomatch hccst)
    · refine ⟨?_, fun st hl => by injection hl with h1 h2; exact h2.symm⟩
      unfold cellStatus
      rw [updateCell_getElem_ne s j i _ hij]
      exact hcanc
  | settle j c2 hc2 hadm hdone =>
    refine ⟨?_, fun st hl => (nomatch hl)⟩
    by_cases hij : i = j
    · subst hij
      have hceq : c2 = cc := by rw [hc2] at hcc; exact (Option.some.inj hcc)
      subst hceq
      unfold cellStatus
      rw [updateCell_getElem_self s i _ c2 hcc]
      exact congrArg some (show TaskCell.status _ = _ from hccst)
    · unfold cellStatus
      rw [updateCell_getElem_ne s j i _ hij]
      exact hcanc
  | sweep j c2 hc2 hrem hfin =>
    refine ⟨?_, fun st hl => (nomatch hl)⟩
    by_cases hij : i = j
    · subst hij
      have hceq : c2 = cc := by rw [hc2] at hcc; exact (Option.some.inj hcc)
      subst hceq
      unfold cellStatus
      rw [updateCell_getElem_self s i _ c2 hcc]
      exact congrArg some (show TaskCell.status _ = _ from hccst)
    · unfold cellStatus
      rw [updateCell_getElem_ne s j i _ hij]
      exact hcanc

/-- C2: once a task's status is `canceled`, every later scheduler state keeps
it `canceled` and no later `upsert` event for it ever carries `completed` or
`failed` — every later upsert for that task carries `canceled`. -/
theorem c2_canceled_sticky (s : SchedState) (i : Nat) (labels : List SchedLabel)
    (sEnd : SchedState) (hcanc : cellStatus s i = some .canceled)
    (hrun : SchedSteps s labels sEnd) :
    cellStatus sEnd i = some .canceled
      ∧ ∀ st : TaskStatus, SchedLabel.upsert i st ∈ labels → st = .canceled := by
  revert hcanc
  induction hrun with
  | refl s2 =>
    intro hcanc
    exact ⟨hcanc, fun st hst => by simp at hst⟩
  | cons s2 l sMid ls sEnd2 hstep hsteps ih =>
    intro hcanc
    obtain ⟨hmid, hlab⟩ := schedStep_canceled_sticky s2 l sMid i hstep hcanc
    obtain ⟨hend, hrest⟩ := ih hmid
    refine ⟨hend, ?_⟩
    intro st hst
    rcases List.mem_cons.mp hst with h1 | h1
    · exact hlab st h1.symm
    · exact hrest st h1

/-- C2 witness: a concrete canceled task whose download finishes afterwards;
the re-emitted upsert still carries `canceled`. -/
theorem c2_canceled_sticky_witness :
    cellStatus [⟨.canceled, false, true, false⟩] 0 = some .canceled
  ∧ ∀ st : TaskStatus,
      SchedLabel.upsert 0 st ∈ [SchedLabel.upsert 0 .canceled] → st = .canceled := by
  have hstep : SchedStep [⟨.canceled, true, true, false⟩] (.upsert 0 .canceled)
      [⟨.canceled, false, true, false⟩] :=
    SchedStep.finishCanceled [⟨.canceled, true, true, false⟩] 0
      ⟨.canceled, true, true, false⟩ rfl rfl rfl rfl
  exact c2_canceled_sticky [⟨.canceled, true, true, false⟩] 0 [.upsert 0 .canceled]
    [⟨.canceled, false, true, false⟩] rfl
    (SchedSteps.cons _ _ _ _ _ hstep (SchedSteps.refl _))

end TgDl
